import Mathlib

/-!
Verification of the FuzzyQD band-structure-unfolding core (`src/funcs.py`)
against its natural-language specification.

The Python source works with numpy floating-point arrays; here every numeric
value is modelled by an exact real number, 1-D arrays by `List ℝ`, 3-vectors by
`Fin 3 → ℝ`, and 3-D grids by `Arr3`.  Fallible accesses (`l[i]`) are modelled
by `List.getD` with junk default `0`, matching the usual shallow-embedding
convention for indices that the source never lets go out of range.
-/

noncomputable section

/-- Dot product of two 3-vectors (`np.dot` on length-3 arrays). -/
def dot3 (u v : Fin 3 → ℝ) : ℝ := ∑ i : Fin 3, u i * v i

/-- Euclidean norm of a 3-vector (`np.linalg.norm`). -/
def norm3 (v : Fin 3 → ℝ) : ℝ := Real.sqrt (dot3 v v)

/-- `np.linspace(a, b, n)`: `n` evenly spaced samples from `a` to `b`
inclusive; for `n = 1` numpy returns `[a]`, for `n = 0` the empty array. -/
def linspaceL (a b : ℝ) (n : ℕ) : List ℝ :=
  (List.range n).map fun i : ℕ =>
    if n = 1 then a else a + (i : ℝ) * (b - a) / ((n : ℝ) - 1)

/-- Python `int()` applied to a float: truncation toward zero. -/
def pyInt (x : ℝ) : ℤ := if 0 ≤ x then ⌊x⌋ else ⌈x⌉

/-- `np.round` / Python 3 `round`: round half to even, otherwise to nearest. -/
def pyRound (x : ℝ) : ℤ :=
  if Int.fract x = 1 / 2 then (if Even ⌊x⌋ then ⌊x⌋ else ⌊x⌋ + 1) else round x

/-- `closest` from the source: `int(np.round(x))` (the rounded value is
integral, so `int()` leaves it unchanged). -/
def closest (x : ℝ) : ℤ := pyRound x

/-- `np.degrees`: radians to degrees. -/
def degrees (x : ℝ) : ℝ := x * 180 / Real.pi

/-- In-place `arr *= sign` on a 1-D array. -/
def scaleL (sign : ℤ) (l : List ℝ) : List ℝ := l.map fun x => (sign : ℝ) * x

/-- The absolute values of the non-zero components of `e_k`
(`abs_e_k[abs_e_k != 0]` in the source). -/
def nonzeroAbs (e_k : Fin 3 → ℝ) : Finset ℝ :=
  (Finset.univ.filter fun i => e_k i ≠ 0).image fun i => |e_k i|

/-- `np.min` over the non-zero absolute components (`min_non_zero` in
`set_index`).  `np.min` of an empty array raises; the zero vector is junk
input here (guarded by the caller per the spec), modelled by `0`. -/
def min_non_zero (e_k : Fin 3 → ℝ) : ℝ :=
  if h : (nonzeroAbs e_k).Nonempty then (nonzeroAbs e_k).min' h else 0

/-- `set_index` from the source: the crystallographic index vector
(`e_k` divided by its smallest non-zero absolute component) and the family
label `int(np.sum(np.abs(index)) - 1)`. -/
def set_index (e_k : Fin 3 → ℝ) : (Fin 3 → ℝ) × ℤ :=
  let index : Fin 3 → ℝ := fun i => e_k i / min_non_zero e_k
  (index, pyInt ((∑ i : Fin 3, |index i|) - 1))

/-- One entry of `e_k_dict`: the per-family direction table. -/
structure DirEntry where
  scale : ℝ
  N_bun : ℕ
  positive_dir : List (Fin 3 → ℝ)
  origin_bun : List (Fin 3 → ℝ)

instance : Inhabited DirEntry := ⟨⟨0, 0, [], []⟩⟩

/-- `l_110 = 1/sqrt(2)`. -/
def l_110 : ℝ := 1 / Real.sqrt 2

/-- `l_111 = 1/sqrt(3)`. -/
def l_111 : ℝ := 1 / Real.sqrt 3

/-- The direction-table constant `e_k_dict` from the source, one entry per
family (100), (110), (111). -/
def e_k_dict : List DirEntry :=
  [ { scale := 1
      N_bun := 1
      positive_dir := [![1, 0, 0], ![0, 1, 0], ![0, 0, 1]]
      origin_bun := [![0, 0, 0], ![1/2, 1/2, 1/2]] },
    { scale := l_110
      N_bun := 1
      positive_dir := [![l_110, l_110, 0], ![l_110, -l_110, 0], ![0, l_110, l_110],
                       ![0, l_110, -l_110], ![l_110, 0, l_110], ![-l_110, 0, l_110]]
      origin_bun := [![0, 0, 0], ![1/2, 1/2, 1/2]] },
    { scale := l_111
      N_bun := 1
      positive_dir := [![l_111, l_111, l_111], ![l_111, l_111, -l_111],
                       ![l_111, -l_111, l_111], ![l_111, -l_111, -l_111]]
      origin_bun := [![0, 0, 0], ![1/2, 1/2, 1/2]] } ]

/-- The `k_segment` record built by `k_path_segment`.  Field names follow the
source dictionary keys; `N_k` additionally records the sample count
`closest((kappa_2 - kappa_1)/dk_set)` computed inside the function (in the
source it is a local variable, observable as `kappa.size`). -/
structure KSegment where
  dir : ℤ
  scale : ℝ
  dir_k : Fin 3 → ℝ
  indices : Fin 3 → ℝ
  pos_k : Fin 3 → ℝ
  kappa_12 : ℝ × ℝ
  r_par_sign : ℤ
  dk : ℝ
  rot_angle : ℝ × ℝ
  k_perp_basis : Fin 3 → Fin 3 → ℝ
  N_bun : ℕ
  origin_bun : List (Fin 3 → ℝ)
  N_k : ℤ
  kappa : List ℝ
  phi_folded : List ℝ

instance : Inhabited KSegment :=
  ⟨⟨0, 0, fun _ => 0, fun _ => 0, fun _ => 0, (0, 0), 1, 0, (0, 0),
    fun _ _ => 0, 0, [], 0, [], []⟩⟩

/-- `k_path_segment` from the source: build one leg of the k-path from its two
endpoints and the target spacing `dk_set`.  A coincident-endpoint pair makes
`norm_k = 0`; the source then produces NaNs, modelled here by the `x / 0 = 0`
junk convention. -/
def k_path_segment (k1 k2 : Fin 3 → ℝ) (dk_set : ℝ) : KSegment :=
  let e_k0 : Fin 3 → ℝ := fun i => k2 i - k1 i
  let norm_k := norm3 e_k0
  let e_k : Fin 3 → ℝ := fun i => e_k0 i / norm_k
  let index := (set_index e_k).1
  let label := (set_index e_k).2
  let entry := e_k_dict.getD label.toNat default
  let sign : ℤ :=
    entry.positive_dir.foldl
      (fun s v => if |dot3 e_k v| > 0.99999 then pyRound (dot3 e_k v) else s) 1
  let kappa_1 := dot3 k1 e_k
  let kappa_2 := dot3 k2 e_k
  let k_0 : Fin 3 → ℝ := fun i => k1 i - kappa_1 * e_k i
  let N_k := closest ((kappa_2 - kappa_1) / dk_set)
  let dk_real := (kappa_2 - kappa_1) / (N_k : ℝ)
  let kappa := linspaceL kappa_1 (kappa_2 - dk_real) N_k.toNat
  let angle_1 : ℝ :=
    if label = 0 then 0
    else -Real.arcsin ((sign : ℝ) * e_k 1 / Real.sqrt ((e_k 0) ^ 2 + (e_k 1) ^ 2))
  let angle_2 : ℝ := if label = 0 then 0 else -Real.arcsin ((sign : ℝ) * e_k 2)
  let k_perp_basis : Fin 3 → Fin 3 → ℝ :=
    if label = 0 then fun i j => if i = j then 1 else 0
    else
      ![![Real.cos angle_2 * Real.cos angle_1, -(Real.cos angle_2 * Real.sin angle_1),
          -Real.sin angle_2],
        ![Real.sin angle_1, Real.cos angle_1, 0],
        ![Real.sin angle_2 * Real.cos angle_1, -(Real.sin angle_2 * Real.sin angle_1),
          Real.cos angle_2]]
  { dir := label
    scale := entry.scale
    dir_k := e_k
    indices := index
    pos_k := k_0
    kappa_12 := (kappa_1, kappa_2)
    r_par_sign := sign
    dk := dk_real
    rot_angle := (angle_1, angle_2)
    k_perp_basis := k_perp_basis
    N_bun := entry.N_bun
    origin_bun := entry.origin_bun
    N_k := N_k
    kappa := kappa
    phi_folded := List.replicate N_k.toNat 0 }

/-- The summary record built by `summary_k_path`. -/
structure KStructure where
  n_dir : Fin 3 → ℕ
  pos_dir : Fin 3 → List ℕ
  Nyquist : ℤ

instance : Inhabited KStructure := ⟨⟨fun _ => 0, fun _ => [], 0⟩⟩

/-- `summary_k_path` from the source: per-family segment counts and positions
(in path order) and the Nyquist limit `floor(0.5*(a_dx/sqrt(3) - 2))`.  The
`segments` argument of the source equals the length of `k_path`. -/
def summary_k_path (k_path : List KSegment) (a_dx : ℝ) : KStructure :=
  { n_dir := fun d => (k_path.filter fun seg => decide (seg.dir = (d : ℤ))).length
    pos_dir := fun d =>
      (List.range k_path.length).filter fun s =>
        decide ((k_path.getD s default).dir = (d : ℤ))
    Nyquist := ⌊0.5 * (a_dx / Real.sqrt 3 - 2)⌋ }

/-- `get_masks` from the source: per-direction conversion masks applied to the
line position vector `k_0`. -/
def get_masks (direction : ℤ) (dir_index : Fin 3 → ℝ) : (Fin 3 → ℝ) × (Fin 3 → ℝ) :=
  let s2 := Real.sqrt 2
  let s6 := Real.sqrt 6
  if direction = 0 then
    if |dir_index 1| = 1 then (![1, 0, 0], ![0, 0, 1])
    else if |dir_index 2| = 1 then (![0, 1, 0], ![1, 0, 0])
    else (![0, 1, 0], ![0, 0, 1])
  else if direction = 1 then
    if |dir_index 2| = 0 ∧ dir_index 0 + dir_index 1 = 0 then
      (![1 / s2, 1 / s2, 0], ![0, 0, 1])
    else if |dir_index 1| = 0 then
      if dir_index 0 + dir_index 2 = 0 then (![1 / s2, 0, 1 / s2], ![0, 1, 0])
      else (![-1 / s2, 0, 1 / s2], ![0, 1, 0])
    else if |dir_index 0| = 0 then
      if dir_index 1 + dir_index 2 = 0 then (![0, 1 / s2, -1 / s2], ![1, 0, 0])
      else (![0, -1 / s2, 1 / s2], ![1, 0, 0])
    else (![-1 / s2, 1 / s2, 0], ![0, 0, 1])
  else if direction = 2 then
    (![-1 / s2, 1 / s2, 0], ![-1 / s6, -1 / s6, 2 / s6])
  else (![0, 1, 0], ![0, 0, 1])

/-- A bundle record as produced by the `set_bundle_*` functions.  `kappa` is
stored column-wise: `kappa[s, i]` of the source is `(kappa.getD i []).getD s 0`. -/
structure Bundle where
  dir_index : Fin 3 → ℝ
  k_0_0 : List ℝ
  k_0_1 : List ℝ
  kappa : List (List ℝ)
  psi_proj : List ℝ

instance : Inhabited Bundle := ⟨⟨fun _ => 0, [], [], [], []⟩⟩

/-- `set_bundle_100` from the source: in-plane coordinates and parallel
wavenumber grid of a (100) bundle. -/
def set_bundle_100 (b : ℕ) (seg : KSegment) (st : KStructure) : Bundle :=
  let dir_index := seg.indices
  let masks := get_masks seg.dir dir_index
  let N : ℤ := st.Nyquist
  let base0 : List ℝ :=
    if b = 0 then linspaceL (-(N : ℝ)) (N : ℝ) (2 * N + 1).toNat
    else linspaceL (-(N : ℝ)) ((N : ℝ) - 1) (2 * N).toNat
  let base1 : List ℝ :=
    if b = 0 then linspaceL (-(N : ℝ)) (N : ℝ) (2 * N + 1).toNat
    else linspaceL (-(N : ℝ)) ((N : ℝ) - 1) (2 * N).toNat
  let k_0 := seg.pos_k
  let k_0_perp : ℝ × ℝ := (dot3 masks.1 k_0, dot3 masks.2 k_0)
  let k0_origin := seg.origin_bun.getD b (fun _ => 0)
  let k0_origin_perp : ℝ × ℝ := (dot3 masks.1 k0_origin, dot3 masks.2 k0_origin)
  let k_0_0 := base0.map fun x => x + (k0_origin_perp.1 + k_0_perp.1)
  let k_0_1 := base1.map fun x => x + (k0_origin_perp.2 + k_0_perp.2)
  let N_k := seg.kappa.length
  let dk := seg.dk
  let width : ℕ := if b = 0 then (2 * N + 1).toNat else (2 * N).toNat
  let kappa : List (List ℝ) :=
    (List.range width).map fun i =>
      let N_zone : ℝ := if b = 0 then -(N : ℝ) + i else -(N : ℝ) + 0.5 + i
      linspaceL (seg.kappa_12.1 + N_zone) (seg.kappa_12.2 + N_zone - dk) N_k
  { dir_index := dir_index, k_0_0 := k_0_0, k_0_1 := k_0_1, kappa := kappa, psi_proj := [] }

/-- Insertion of the free-axis column at position `pos_z` (`np.hstack` of the
two `BZ_2D` columns around the tiled `n_2` column in `combinations_110_bis`). -/
def insertCol (pos_z : Fin 3) (nv : ℝ) (p : ℝ × ℝ) : Fin 3 → ℝ :=
  if pos_z = 0 then ![nv, p.1, p.2] else if pos_z = 1 then ![p.1, nv, p.2] else ![p.1, p.2, nv]

/-- `combinations_110_bis` from the source: lattice translations of layer `l`
in bundle `b` of a (110) segment. -/
def combinations_110_bis (seg : KSegment) (l b : ℕ) (Nyq : ℤ) : List (Fin 3 → ℝ) :=
  let sign := seg.r_par_sign
  let index : Fin 3 → ℝ := fun i => (sign : ℝ) * seg.indices i
  let n_2 : List ℝ := linspaceL (-(Nyq : ℝ)) ((Nyq : ℝ) - b) (2 * Nyq + 1 - b).toNat
  let BZ_2D : List (ℝ × ℝ) := if l = 0 then [(0, 0)] else [((l : ℝ), 0), (0, (l : ℝ))]
  let pyz : Fin 3 × Fin 3 :=
    if |index 1| < 1e-6 then (2, 1) else if |index 0| < 1e-6 then (2, 0) else (1, 2)
  let origin := seg.origin_bun.getD b (fun _ => 0)
  BZ_2D.flatMap fun p =>
    n_2.map fun nv =>
      let row := insertCol pyz.2 nv p
      fun i => (if i = pyz.1 then index pyz.1 * row i else row i) + origin i

/-- `set_bundle_110` from the source: in-plane coordinates and parallel
wavenumber grid of a (110) bundle layer. -/
def set_bundle_110 (BZ : List (Fin 3 → ℝ)) (l b : ℕ) (seg : KSegment) (st : KStructure) :
    Bundle :=
  let dir_index := seg.indices
  let N : ℤ := st.Nyquist
  let basis := seg.k_perp_basis
  let e_par := basis 0
  let e_perp_0 := basis 1
  let e_perp_1 := basis 2
  let k_0 := seg.pos_k
  let k_perp_0 := BZ.map fun row => dot3 row e_perp_0 + dot3 e_perp_0 k_0
  let k_perp_1 := BZ.map fun row => dot3 row e_perp_1 + dot3 e_perp_1 k_0
  let N_k := seg.kappa.length
  let dk := seg.dk
  let n_min : ℤ := l - 2 * N
  let n_max : ℤ := 2 * (N - b) - l
  let n_kappa : ℤ := pyRound (((n_max : ℝ) - (n_min : ℝ)) / 2 + 1)
  let kappa_0 := dot3 e_par (seg.origin_bun.getD b (fun _ => 0))
  let kappa : List (List ℝ) :=
    (List.range n_kappa.toNat).map fun i =>
      let N_zone : ℝ := (n_min : ℝ) / 2 + i
      linspaceL (kappa_0 + seg.kappa_12.1 + N_zone / seg.scale)
        (kappa_0 + seg.kappa_12.2 + N_zone / seg.scale - dk) N_k
  { dir_index := dir_index, k_0_0 := k_perp_0, k_0_1 := k_perp_1, kappa := kappa,
    psi_proj := [] }

/-- `combinations_111` from the source: the unique permutations of
`(w, l, 0)` with sign flips steered by the signed index vector, shifted by the
bundle origin.  Python materialises `set(permutations(cell))`, whose iteration
order is unspecified; the enumeration order is irrelevant downstream (the rows
are only summed over). -/
def combinations_111 (w l b : ℕ) (seg : KSegment) : List (Fin 3 → ℝ) :=
  let sign := seg.r_par_sign
  let index : Fin 3 → ℝ := fun i => (sign : ℝ) * seg.indices i
  let cells : List (Fin 3 → ℤ) :=
    ([![(w : ℤ), l, 0], ![(w : ℤ), 0, l], ![(l : ℤ), w, 0], ![(l : ℤ), 0, w],
      ![(0 : ℤ), w, l], ![(0 : ℤ), l, w]]).dedup
  let flipped : List (Fin 3 → ℤ) :=
    if (∑ i : Fin 3, index i) < 1.00001 then
      if index 0 > 0.99999 ∧ index 1 > 0.99999 then
        cells.map fun c => fun i => if i = 2 then -c i else c i
      else if index 0 > 0.99999 ∧ index 2 > 0.99999 then
        cells.map fun c => fun i => if i = 1 then -c i else c i
      else if (∑ i : Fin 3, index i) < -0.99999 then
        cells.map fun c => fun i => if i = 0 then c i else -c i
      else cells
    else cells
  flipped.map fun c => fun i => (c i : ℝ) + (seg.origin_bun.getD b (fun _ => 0)) i

/-- `set_bundle_111` from the source: in-plane coordinates and parallel
wavenumber grid of a (111) bundle cell. -/
def set_bundle_111 (BZ : List (Fin 3 → ℝ)) (w l b : ℕ) (seg : KSegment) (st : KStructure) :
    Bundle :=
  let dir_index := seg.indices
  let N : ℤ := st.Nyquist
  let basis := seg.k_perp_basis
  let e_par := basis 0
  let e_perp_0 := basis 1
  let e_perp_1 := basis 2
  let k_0 := seg.pos_k
  let k_perp_0 := BZ.map fun row => dot3 row e_perp_0 + dot3 e_perp_0 k_0
  let k_perp_1 := BZ.map fun row => dot3 row e_perp_1 + dot3 e_perp_1 k_0
  let N_k := seg.kappa.length
  let dk := seg.dk
  let n_min : ℤ := w + l - 3 * N
  let n_max : ℤ := 3 * (N - b) + l - 2 * w
  let n_kappa : ℤ := pyRound (((n_max : ℝ) - (n_min : ℝ)) / 3 + 1)
  let kappa_0 := dot3 e_par (seg.origin_bun.getD b (fun _ => 0))
  let kappa : List (List ℝ) :=
    (List.range n_kappa.toNat).map fun i =>
      let n_cell : ℝ := (n_min : ℝ) + 3 * i
      linspaceL (kappa_0 + seg.kappa_12.1 + n_cell * seg.scale)
        (kappa_0 + seg.kappa_12.2 + n_cell * seg.scale - dk) N_k
  { dir_index := dir_index, k_0_0 := k_perp_0, k_0_1 := k_perp_1, kappa := kappa,
    psi_proj := [] }

/-- A dense 3-D grid (`numpy` 3-D array): a shape and a total value function
(junk `0` outside the shape). -/
structure Arr3 where
  n0 : ℕ
  n1 : ℕ
  n2 : ℕ
  dat : ℕ → ℕ → ℕ → ℝ

instance : Inhabited Arr3 := ⟨⟨0, 0, 0, fun _ _ _ => 0⟩⟩

/-- Index-routing through the axis assignment returned by the reorienter:
coordinate `x` goes to axis `axisId 0`, `p0` to `axisId 1`, `p1` to `axisId 2`
(that is how `np.tensordot(..., axes=([..], [axis_id[1], axis_id[2]]))`
consumes `psi_rot` in the chunk processors). -/
def axisAssign (axisId : Fin 3 → ℕ) (x p0 p1 : ℕ) (a : ℕ) : ℕ :=
  if axisId 0 = a then x else if axisId 1 = a then p0 else if axisId 2 = a then p1 else 0

/-- Value of the reoriented field at parallel coordinate `x` and perpendicular
coordinates `p0`, `p1`, routed through `axis_id`. -/
def psiAt (psi : Arr3) (axisId : Fin 3 → ℕ) (x p0 p1 : ℕ) : ℝ :=
  psi.dat (axisAssign axisId x p0 p1 0) (axisAssign axisId x p0 p1 1)
    (axisAssign axisId x p0 p1 2)

/-- A heap value: a 3-D field or a 1-D coordinate array. -/
def HVal : Type := Arr3 ⊕ List ℝ

instance : Inhabited HVal := ⟨Sum.inr []⟩

/-- Read a heap value as a 3-D array (the source never mixes the two kinds). -/
def getA3 (v : HVal) : Arr3 := match v with | Sum.inl a => a | Sum.inr _ => default

/-- Read a heap value as a 1-D array. -/
def getA1 (v : HVal) : List ℝ := match v with | Sum.inl _ => [] | Sum.inr l => l

/-- The numpy object store used to model aliasing and in-place updates in the
reorienters: a heap of array values and a fresh-address counter. -/
structure HState where
  heap : ℕ → HVal
  next : ℕ

instance : Inhabited HState := ⟨⟨fun _ => default, 0⟩⟩

/-- Bind a newly created array to a fresh address. -/
def halloc (s : HState) (v : HVal) : HState × ℕ :=
  (⟨Function.update s.heap s.next v, s.next + 1⟩, s.next)

/-- In-place update of the array at address `r` (numpy `*=` etc.). -/
def hstore (s : HState) (r : ℕ) (v : HVal) : HState :=
  ⟨Function.update s.heap r v, s.next⟩

/-- Result record of the reorienters: final store, addresses of the rotated
field and of the three coordinate ramps, and the axis assignment. -/
structure RotRes where
  st : HState
  psiRotRef : ℕ
  rParRef : ℕ
  rPerp0Ref : ℕ
  rPerp1Ref : ℕ
  axis_id : Fin 3 → ℕ

/-- `rotate_psi` from the source, modelled over the array store so that
aliasing (`r_par = r_perp_0 = r_perp_1 = np.linspace(...)`) and the in-place
`r_par *= sign` are captured.  The scipy `rotate(arr, angle, axes,
reshape=True)` collaborator is an opaque parameter `rot`; each of its calls
returns a fresh array.  `psiRef` is the address of the input field `psi`. -/
def rotate_psi (rot : Arr3 → ℝ → ℕ × ℕ → Arr3) (s0 : HState) (psiRef : ℕ)
    (seg : KSegment) : RotRes :=
  let psi := getA3 (s0.heap psiRef)
  let a1 := halloc s0 (Sum.inl psi)
  let s1 := a1.1
  let psiRotRef0 := a1.2
  let N := psi.n0
  let a2 := halloc s1 (Sum.inr (linspaceL 0 ((N : ℝ) - 1) N))
  let s2 := a2.1
  let linRef := a2.2
  let axis_id : Fin 3 → ℕ :=
    if seg.dir = 0 then
      if |seg.dir_k 1| > 0.999999 then ![1, 0, 2]
      else if |seg.dir_k 2| > 0.999999 then ![2, 1, 0]
      else ![0, 1, 2]
    else ![0, 1, 2]
  let res110 : HState × ℕ × ℕ × ℕ × ℕ :=
    if seg.dir = 1 then
      let rotStep : HState × ℕ :=
        if |seg.dir_k 2| < 1e-6 then
          halloc s2 (Sum.inl (rot psi (degrees seg.rot_angle.1) (0, 1)))
        else if |seg.dir_k 1| < 1e-6 then
          halloc s2 (Sum.inl (rot psi (degrees seg.rot_angle.2) (0, 2)))
        else if |seg.dir_k 0| < 1e-6 then
          let psi_i := rot psi (degrees seg.rot_angle.1) (0, 1)
          let aI := halloc s2 (Sum.inl psi_i)
          halloc aI.1 (Sum.inl (rot psi_i (degrees seg.rot_angle.2) (0, 2)))
        else (s2, psiRotRef0)
      let sA := rotStep.1
      let prRef := rotStep.2
      let psiRotV := getA3 (sA.heap prRef)
      let aP := halloc sA (Sum.inr (linspaceL 0 ((psiRotV.n0 : ℝ) - 1) psiRotV.n0))
      let aQ := halloc aP.1 (Sum.inr (linspaceL 0 ((psiRotV.n1 : ℝ) - 1) psiRotV.n1))
      let aR := halloc aQ.1 (Sum.inr (linspaceL 0 ((psiRotV.n2 : ℝ) - 1) psiRotV.n2))
      (aR.1, prRef, aP.2, aQ.2, aR.2)
    else (s2, psiRotRef0, linRef, linRef, linRef)
  let s3 := res110.1
  let prR := res110.2.1
  let rParR := res110.2.2.1
  let rP0R := res110.2.2.2.1
  let rP1R := res110.2.2.2.2
  let s4 := hstore s3 rParR (Sum.inr (scaleL seg.r_par_sign (getA1 (s3.heap rParR))))
  ⟨s4, prR, rParR, rP0R, rP1R, axis_id⟩

/-- The value of the field returned by `rotate_psi` (`psi_rot`). -/
def rotate_psiRotVal (rot : Arr3 → ℝ → ℕ × ℕ → Arr3) (s0 : HState) (psiRef : ℕ)
    (seg : KSegment) : Arr3 :=
  let r := rotate_psi rot s0 psiRef seg
  getA3 (r.st.heap r.psiRotRef)

/-- `rotate_psi_111` from the source: two composed rotations by the
sign-scaled angles, fresh coordinate ramps from the resulting shape, and the
in-place `r_par *= sign`. -/
def rotate_psi_111 (rot : Arr3 → ℝ → ℕ × ℕ → Arr3) (s0 : HState) (psiRef : ℕ)
    (seg : KSegment) : RotRes :=
  let psi := getA3 (s0.heap psiRef)
  let sign := seg.r_par_sign
  let psi_i := rot psi ((sign : ℝ) * degrees seg.rot_angle.1) (0, 1)
  let aI := halloc s0 (Sum.inl psi_i)
  let psi_rot := rot psi_i ((sign : ℝ) * degrees seg.rot_angle.2) (0, 2)
  let aR := halloc aI.1 (Sum.inl psi_rot)
  let axis_id : Fin 3 → ℕ := ![0, 1, 2]
  let aP := halloc aR.1 (Sum.inr (linspaceL 0 ((psi_rot.n0 : ℝ) - 1) psi_rot.n0))
  let aQ := halloc aP.1 (Sum.inr (linspaceL 0 ((psi_rot.n1 : ℝ) - 1) psi_rot.n1))
  let aS := halloc aQ.1 (Sum.inr (linspaceL 0 ((psi_rot.n2 : ℝ) - 1) psi_rot.n2))
  let s5 := hstore aS.1 aP.2 (Sum.inr (scaleL sign (getA1 (aS.1.heap aP.2))))
  ⟨s5, aR.2, aP.2, aQ.2, aS.2, axis_id⟩

/-- The bundle indices enumerated by the projection driver (`bse`) for one
(100) segment: `range(bundles)` with `bundles = k_segment['N_bun']`. -/
def bseWorkItems100 (seg : KSegment) : List ℕ := List.range seg.N_bun

/-- The `(b, l)` pairs enumerated by the projection driver for one (110)
segment (`tensordot_operations` at line 1306 of the source). -/
def workItems110 (bundles : ℕ) (Nyq : ℤ) : List (ℕ × ℕ) :=
  (List.range bundles).flatMap fun b =>
    (List.range (2 * Nyq + 1 - b).toNat).map fun l => (b, l)

/-- The `(b, w, l)` triples enumerated by the projection driver for one (111)
segment (`bundle_width_layer_combinations` at lines 1348-1352 of the source). -/
def workItems111 (bundles : ℕ) (Nyq : ℤ) : List (ℕ × ℕ × ℕ) :=
  (List.range bundles).flatMap fun b =>
    (List.range (2 * Nyq + 1 - b).toNat).flatMap fun w =>
      (List.range (w + 1)).map fun l => (b, w, l)

/-- Per-bundle folded-weight contribution of `process_bundle_chunk_100` for one
bundle index `b`: the phase-factor tensor contractions of the source, written
as explicit finite sums; entry `s` is the spectral weight added at parallel
sample `s`. -/
def bundleContrib100 (seg : KSegment) (st : KStructure) (psiRot : Arr3)
    (rPar rPerp0 rPerp1 : List ℝ) (axisId : Fin 3 → ℕ) (kUnit dx : ℝ) (b : ℕ) :
    ℕ → ℝ := fun s =>
  let bundle := set_bundle_100 b seg st
  ∑ w ∈ Finset.range bundle.kappa.length,
    ∑ m ∈ Finset.range bundle.k_0_0.length,
      ∑ m2 ∈ Finset.range bundle.k_0_1.length,
        Complex.abs
          (∑ x ∈ Finset.range rPar.length,
            Complex.exp (-Complex.I *
              (((kUnit * ((bundle.kappa.getD w []).getD s 0) * rPar.getD x 0) * dx : ℝ) : ℂ)) *
            ∑ p0 ∈ Finset.range rPerp0.length,
              ∑ p1 ∈ Finset.range rPerp1.length,
                Complex.exp (-Complex.I *
                  ((bundle.k_0_0.getD m 0 * rPerp0.getD p0 0 * kUnit * dx +
                    bundle.k_0_1.getD m2 0 * rPerp1.getD p1 0 * kUnit * dx : ℝ) : ℂ)) *
                ((psiAt psiRot axisId x p0 p1 : ℝ) : ℂ)) ^ 2

/-- `process_bundle_chunk_100` from the source: zero accumulator, then one
`+=` of the per-bundle contribution for each bundle index in the chunk. -/
def process_bundle_chunk_100 (chunk : List ℕ) (seg : KSegment) (st : KStructure)
    (psiRot : Arr3) (rPar rPerp0 rPerp1 : List ℝ) (axisId : Fin 3 → ℕ)
    (kUnit dx : ℝ) : ℕ → ℝ :=
  chunk.foldl
    (fun acc b => acc + bundleContrib100 seg st psiRot rPar rPerp0 rPerp1 axisId kUnit dx b) 0

/-- Per-item folded-weight contribution of `process_bundle_chunk_110` for one
`(b, l)` work item. -/
def bundleContrib110 (seg : KSegment) (st : KStructure) (psiRot : Arr3)
    (rPar rPerp0 rPerp1 : List ℝ) (axisId : Fin 3 → ℕ) (kUnit dx : ℝ) (Nyq : ℤ)
    (bl : ℕ × ℕ) : ℕ → ℝ := fun s =>
  let BZ := combinations_110_bis seg bl.2 bl.1 Nyq
  let bundle := set_bundle_110 BZ bl.2 bl.1 seg st
  ∑ w ∈ Finset.range bundle.kappa.length,
    ∑ img ∈ Finset.range bundle.k_0_0.length,
      Complex.abs
        (∑ x ∈ Finset.range rPar.length,
          Complex.exp (-Complex.I *
            (((kUnit * ((bundle.kappa.getD w []).getD s 0) * rPar.getD x 0) * dx : ℝ) : ℂ)) *
          ∑ p0 ∈ Finset.range rPerp0.length,
            ∑ p1 ∈ Finset.range rPerp1.length,
              Complex.exp (-Complex.I *
                (((bundle.k_0_0.getD img 0 * rPerp0.getD p0 0 +
                   bundle.k_0_1.getD img 0 * rPerp1.getD p1 0) * kUnit * dx : ℝ) : ℂ)) *
              ((psiAt psiRot axisId x p0 p1 : ℝ) : ℂ)) ^ 2

/-- `process_bundle_chunk_110` from the source. -/
def process_bundle_chunk_110 (chunk : List (ℕ × ℕ)) (seg : KSegment) (st : KStructure)
    (psiRot : Arr3) (rPar rPerp0 rPerp1 : List ℝ) (axisId : Fin 3 → ℕ)
    (kUnit dx : ℝ) (Nyq : ℤ) : ℕ → ℝ :=
  chunk.foldl
    (fun acc bl =>
      acc + bundleContrib110 seg st psiRot rPar rPerp0 rPerp1 axisId kUnit dx Nyq bl) 0

/-- Per-item folded-weight contribution of `process_bundle_chunk_111` for one
`(b, w, l)` work item. -/
def bundleContrib111 (seg : KSegment) (st : KStructure) (psiRot : Arr3)
    (rPar rPerp0 rPerp1 : List ℝ) (axisId : Fin 3 → ℕ) (kUnit dx : ℝ)
    (bwl : ℕ × ℕ × ℕ) : ℕ → ℝ := fun s =>
  let BZ := combinations_111 bwl.2.1 bwl.2.2 bwl.1 seg
  let bundle := set_bundle_111 BZ bwl.2.1 bwl.2.2 bwl.1 seg st
  ∑ w ∈ Finset.range bundle.kappa.length,
    ∑ img ∈ Finset.range bundle.k_0_0.length,
      Complex.abs
        (∑ x ∈ Finset.range rPar.length,
          Complex.exp (-Complex.I *
            (((kUnit * ((bundle.kappa.getD w []).getD s 0) * rPar.getD x 0) * dx : ℝ) : ℂ)) *
          ∑ p0 ∈ Finset.range rPerp0.length,
            ∑ p1 ∈ Finset.range rPerp1.length,
              Complex.exp (-Complex.I *
                (((bundle.k_0_0.getD img 0 * rPerp0.getD p0 0 +
                   bundle.k_0_1.getD img 0 * rPerp1.getD p1 0) * kUnit * dx : ℝ) : ℂ)) *
              ((psiAt psiRot axisId x p0 p1 : ℝ) : ℂ)) ^ 2

/-- `process_bundle_chunk_111` from the source. -/
def process_bundle_chunk_111 (chunk : List (ℕ × ℕ × ℕ)) (seg : KSegment) (st : KStructure)
    (psiRot : Arr3) (rPar rPerp0 rPerp1 : List ℝ) (axisId : Fin 3 → ℕ)
    (kUnit dx : ℝ) : ℕ → ℝ :=
  chunk.foldl
    (fun acc bwl =>
      acc + bundleContrib111 seg st psiRot rPar rPerp0 rPerp1 axisId kUnit dx bwl) 0

/-- The concatenation loop of `organize_output_path`: shift each segment so its
first kappa equals the running continuity point `kend`, append the shifted
samples, advance `kend` to the shifted end plus the segment spacing, and close
with the final `kend`.  `organize_output_path` starts from a placeholder list
`[0]` and drops it at the end, which is the same as starting this recursion
with `kend = 0`. -/
def buildKappa : List KSegment → ℝ → List ℝ
  | [], kend => [kend]
  | seg :: rest, kend =>
    let shifted := seg.kappa.map fun x => x - (seg.kappa.headD 0 - kend)
    shifted ++ buildKappa rest (shifted.getLastD 0 + seg.dk)

/-- `organize_output_path` from the source, restricted to its kappa output
(the `kappa_ticks` output is a selection of the same values and is not needed
for the claims).  The `k_path_points` argument only provides the segment
count, which equals the length of `k_path`. -/
def organize_output_path (k_path : List KSegment) : List ℝ :=
  buildKappa k_path 0

/-! ### Helper lemmas -/

theorem foldl_add_eq {α M : Type*} [AddCommMonoid M] (f : α → M) :
    ∀ (l : List α) (i : M), l.foldl (fun acc x => acc + f x) i = i + (l.map f).sum
  | [], i => by simp
  | x :: xs, i => by
    simp only [List.foldl_cons, List.map_cons, List.sum_cons]
    rw [foldl_add_eq f xs (i + f x), add_assoc]

theorem chunked_sum {α M : Type*} [AddCommMonoid M] (f : α → M) (chunks : List (List α)) :
    (chunks.map fun c => (c.map f).sum).sum = (chunks.flatten.map f).sum := by
  induction chunks with
  | nil => simp
  | cons c cs ih => simp [ih]

theorem process_chunk_100_eq (chunk : List ℕ) (seg : KSegment) (st : KStructure)
    (psiRot : Arr3) (rPar rPerp0 rPerp1 : List ℝ) (axisId : Fin 3 → ℕ) (kUnit dx : ℝ) :
    process_bundle_chunk_100 chunk seg st psiRot rPar rPerp0 rPerp1 axisId kUnit dx =
      (chunk.map (bundleContrib100 seg st psiRot rPar rPerp0 rPerp1 axisId kUnit dx)).sum := by
  rw [process_bundle_chunk_100, foldl_add_eq, zero_add]

theorem process_chunk_110_eq (chunk : List (ℕ × ℕ)) (seg : KSegment) (st : KStructure)
    (psiRot : Arr3) (rPar rPerp0 rPerp1 : List ℝ) (axisId : Fin 3 → ℕ) (kUnit dx : ℝ)
    (Nyq : ℤ) :
    process_bundle_chunk_110 chunk seg st psiRot rPar rPerp0 rPerp1 axisId kUnit dx Nyq =
      (chunk.map
        (bundleContrib110 seg st psiRot rPar rPerp0 rPerp1 axisId kUnit dx Nyq)).sum := by
  rw [process_bundle_chunk_110, foldl_add_eq, zero_add]

theorem process_chunk_111_eq (chunk : List (ℕ × ℕ × ℕ)) (seg : KSegment) (st : KStructure)
    (psiRot : Arr3) (rPar rPerp0 rPerp1 : List ℝ) (axisId : Fin 3 → ℕ) (kUnit dx : ℝ) :
    process_bundle_chunk_111 chunk seg st psiRot rPar rPerp0 rPerp1 axisId kUnit dx =
      (chunk.map
        (bundleContrib111 seg st psiRot rPar rPerp0 rPerp1 axisId kUnit dx)).sum := by
  rw [process_bundle_chunk_111, foldl_add_eq, zero_add]

/-! ### C3 -/

/-- C3: for every segment, every list of work items and every partition of the
list into chunks, summing the per-chunk folded-weight arrays of
`process_bundle_chunk_100` / `_110` / `_111` equals processing all work items
in one chunk, as an exact equation over real arithmetic. -/
theorem chunking_equivalence (seg : KSegment) (st : KStructure) (psiRot : Arr3)
    (rPar rPerp0 rPerp1 : List ℝ) (axisId : Fin 3 → ℕ) (kUnit dx : ℝ) (Nyq : ℤ) :
    (∀ (chunks : List (List ℕ)) (items : List ℕ), chunks.flatten = items →
      (chunks.map fun c =>
          process_bundle_chunk_100 c seg st psiRot rPar rPerp0 rPerp1 axisId kUnit dx).sum =
        process_bundle_chunk_100 items seg st psiRot rPar rPerp0 rPerp1 axisId kUnit dx) ∧
    (∀ (chunks : List (List (ℕ × ℕ))) (items : List (ℕ × ℕ)), chunks.flatten = items →
      (chunks.map fun c =>
          process_bundle_chunk_110 c seg st psiRot rPar rPerp0 rPerp1 axisId kUnit dx
            Nyq).sum =
        process_bundle_chunk_110 items seg st psiRot rPar rPerp0 rPerp1 axisId kUnit dx
          Nyq) ∧
    (∀ (chunks : List (List (ℕ × ℕ × ℕ))) (items : List (ℕ × ℕ × ℕ)),
      chunks.flatten = items →
      (chunks.map fun c =>
          process_bundle_chunk_111 c seg st psiRot rPar rPerp0 rPerp1 axisId kUnit dx).sum =
        process_bundle_chunk_111 items seg st psiRot rPar rPerp0 rPerp1 axisId kUnit dx) := by
  refine ⟨?_, ?_, ?_⟩
  · intro chunks items h
    subst h
    simp only [process_chunk_100_eq]
    exact chunked_sum _ chunks
  · intro chunks items h
    subst h
    simp only [process_chunk_110_eq]
    exact chunked_sum _ chunks
  · intro chunks items h
    subst h
    simp only [process_chunk_111_eq]
    exact chunked_sum _ chunks

/-- Witness for C3: a concrete two-chunk partition of each family's work list. -/
theorem chunking_equivalence_witness :
    ([[0], [1]] : List (List ℕ)).flatten = [0, 1] ∧
    ([[(0, 0)], [(0, 1)]] : List (List (ℕ × ℕ))).flatten = [(0, 0), (0, 1)] ∧
    ([[(0, 1, 0)], [(0, 1, 1)]] : List (List (ℕ × ℕ × ℕ))).flatten =
      [(0, 1, 0), (0, 1, 1)] ∧
    (([[0], [1]] : List (List ℕ)).map fun c =>
        process_bundle_chunk_100 c default default default [] [] [] ![0, 1, 2] 0 0).sum =
      process_bundle_chunk_100 [0, 1] default default default [] [] [] ![0, 1, 2] 0 0 ∧
    (([[(0, 0)], [(0, 1)]] : List (List (ℕ × ℕ))).map fun c =>
        process_bundle_chunk_110 c default default default [] [] [] ![0, 1, 2] 0 0 1).sum =
      process_bundle_chunk_110 [(0, 0), (0, 1)] default default default [] [] []
        ![0, 1, 2] 0 0 1 ∧
    (([[(0, 1, 0)], [(0, 1, 1)]] : List (List (ℕ × ℕ × ℕ))).map fun c =>
        process_bundle_chunk_111 c default default default [] [] [] ![0, 1, 2] 0 0).sum =
      process_bundle_chunk_111 [(0, 1, 0), (0, 1, 1)] default default default [] [] []
        ![0, 1, 2] 0 0 :=
  ⟨rfl, rfl, rfl,
    (chunking_equivalence default default default [] [] [] ![0, 1, 2] 0 0 1).1 _ _ rfl,
    (chunking_equivalence default default default [] [] [] ![0, 1, 2] 0 0 1).2.1 _ _ rfl,
    (chunking_equivalence default default default [] [] [] ![0, 1, 2] 0 0 1).2.2 _ _ rfl⟩

/-! ### C1 -/

/-- C1: for a (110) segment the projection driver's work list contains exactly
the pairs `(b, l)` with `b < bundles` and `0 ≤ l ≤ 2*Nyq - b`, and for a (111)
segment exactly the triples `(b, w, l)` with `b < bundles`,
`0 ≤ w ≤ 2*Nyq - b`, `0 ≤ l ≤ w`; no item is dropped (membership) or
duplicated (`Nodup`).  `bundles` stands for the segment's bundle count
`k_segment['N_bun']`, `Nyq` for the path summary's Nyquist limit. -/
theorem work_item_enumeration (bundles : ℕ) (Nyq : ℤ) :
    (∀ b l : ℕ,
      ((b, l) ∈ workItems110 bundles Nyq ↔ b < bundles ∧ (l : ℤ) ≤ 2 * Nyq - b)) ∧
    (workItems110 bundles Nyq).Nodup ∧
    (∀ b w l : ℕ,
      ((b, w, l) ∈ workItems111 bundles Nyq ↔
        b < bundles ∧ (w : ℤ) ≤ 2 * Nyq - b ∧ l ≤ w)) ∧
    (workItems111 bundles Nyq).Nodup := by
  refine ⟨?_, ?_, ?_, ?_⟩
  · intro b l
    simp only [workItems110, List.mem_flatMap, List.mem_map, List.mem_range,
      Prod.mk.injEq]
    constructor
    · rintro ⟨b', hb', l', hl', rfl, rfl⟩
      rw [Int.lt_toNat] at hl'
      exact ⟨hb', by omega⟩
    · rintro ⟨hb, hl⟩
      exact ⟨b, hb, l, by rw [Int.lt_toNat]; omega, rfl, rfl⟩
  · rw [workItems110, List.nodup_flatMap]
    refine ⟨fun b _ => ?_, ?_⟩
    · exact (List.nodup_range _).map fun x y h => (Prod.mk.injEq _ _ _ _).mp h |>.2
    · refine List.Pairwise.imp ?_ (List.pairwise_lt_range _)
      intro b b' hbb p hp hp'
      simp only [List.mem_map, List.mem_range] at hp hp'
      obtain ⟨l, _, rfl⟩ := hp
      obtain ⟨l', _, h⟩ := hp'
      exact absurd ((Prod.mk.injEq _ _ _ _).mp h).1 (by omega)
  · intro b w l
    simp only [workItems111, List.mem_flatMap, List.mem_map, List.mem_range,
      Prod.mk.injEq]
    constructor
    · rintro ⟨b', hb', w', hw', l', hl', rfl, rfl, rfl⟩
      rw [Int.lt_toNat] at hw'
      exact ⟨hb', by omega, by omega⟩
    · rintro ⟨hb, hw, hl⟩
      exact ⟨b, hb, w, by rw [Int.lt_toNat]; omega, l, by omega, rfl, rfl, rfl⟩
  · rw [workItems111, List.nodup_flatMap]
    refine ⟨fun b _ => ?_, ?_⟩
    · rw [List.nodup_flatMap]
      refine ⟨fun w _ => ?_, ?_⟩
      · exact (List.nodup_range _).map fun x y h => by
          have := (Prod.mk.injEq _ _ _ _).mp h
          exact ((Prod.mk.injEq _ _ _ _).mp this.2).2
      · refine List.Pairwise.imp ?_ (List.pairwise_lt_range _)
        intro w w' hww p hp hp'
        simp only [List.mem_map, List.mem_range] at hp hp'
        obtain ⟨l, _, rfl⟩ := hp
        obtain ⟨l', _, h⟩ := hp'
        have := (Prod.mk.injEq _ _ _ _).mp ((Prod.mk.injEq _ _ _ _).mp h).2
        exact absurd this.1 (by omega)
    · refine List.Pairwise.imp ?_ (List.pairwise_lt_range _)
      intro b b' hbb p hp hp'
      simp only [List.mem_flatMap, List.mem_map, List.mem_range] at hp hp'
      obtain ⟨w, _, l, _, rfl⟩ := hp
      obtain ⟨w', _, l', _, h⟩ := hp'
      exact absurd ((Prod.mk.injEq _ _ _ _).mp h).1 (by omega)

/-- Witness for C1: concrete memberships and the concrete work lists for one
bundle and Nyquist limit 1. -/
theorem work_item_enumeration_witness :
    ((0, 2) ∈ workItems110 1 1) ∧ ((0, 2, 1) ∈ workItems111 1 1) ∧
    (workItems110 1 1).Nodup ∧ (workItems111 1 1).Nodup :=
  ⟨((work_item_enumeration 1 1).1 0 2).mpr (by norm_num),
    ((work_item_enumeration 1 1).2.2.1 0 2 1).mpr (by norm_num),
    (work_item_enumeration 1 1).2.1,
    (work_item_enumeration 1 1).2.2.2⟩

/-! ### C4 -/

theorem linspaceL_length (a b : ℝ) (n : ℕ) : (linspaceL a b n).length = n := by
  rw [linspaceL, List.length_map, List.length_range]

theorem linspaceL_getD (a b : ℝ) (n i : ℕ) (h : i < n) :
    (linspaceL a b n).getD i 0 =
      if n = 1 then a else a + i * (b - a) / ((n : ℝ) - 1) := by
  rw [List.getD_eq_getElem _ _ (by simpa [linspaceL_length] using h)]
  simp only [linspaceL, List.getElem_map, List.getElem_range]

theorem k_path_segment_dk_def (k1 k2 : Fin 3 → ℝ) (dk_set : ℝ) :
    (k_path_segment k1 k2 dk_set).dk =
      ((k_path_segment k1 k2 dk_set).kappa_12.2 -
          (k_path_segment k1 k2 dk_set).kappa_12.1) /
        ((k_path_segment k1 k2 dk_set).N_k : ℝ) := rfl

theorem k_path_segment_kappa_def (k1 k2 : Fin 3 → ℝ) (dk_set : ℝ) :
    (k_path_segment k1 k2 dk_set).kappa =
      linspaceL (k_path_segment k1 k2 dk_set).kappa_12.1
        ((k_path_segment k1 k2 dk_set).kappa_12.2 - (k_path_segment k1 k2 dk_set).dk)
        (k_path_segment k1 k2 dk_set).N_k.toNat := rfl

theorem seg100_N_k : (k_path_segment ![0, 0, 0] ![1, 0, 0] (1/10)).N_k = 10 := by
  show closest _ = 10
  norm_num [dot3, norm3, Fin.sum_univ_three]
  norm_num [closest, pyRound, Int.fract]

theorem seg100_kappa_12 :
    (k_path_segment ![0, 0, 0] ![1, 0, 0] (1/10)).kappa_12 = (0, 1) := by
  show (_, _) = ((0 : ℝ), (1 : ℝ))
  norm_num [dot3, norm3, Fin.sum_univ_three]

theorem seg100_dk : (k_path_segment ![0, 0, 0] ![1, 0, 0] (1/10)).dk = 1/10 := by
  show (_ - _) / ((k_path_segment ![0, 0, 0] ![1, 0, 0] (1/10)).N_k : ℝ) = 1/10
  rw [seg100_N_k]
  norm_num [dot3, norm3, Fin.sum_univ_three]

/-- C4: the concrete segment from `(0,0,0)` to `(1,0,0)` with `dk_set = 0.1`
has 10 samples, actual spacing `0.1` and samples `0, 0.1, ..., 0.9`; and in
general, whenever `kappa_2 > kappa_1` and the sample count is positive, the
samples are evenly spaced from `kappa_1` with step `(kappa_2 - kappa_1)/N_k`,
excluding `kappa_2` (the last sample plus the spacing equals `kappa_2`). -/
theorem sampling_grid_spec :
    ((k_path_segment ![0, 0, 0] ![1, 0, 0] (1/10)).N_k = 10 ∧
      (k_path_segment ![0, 0, 0] ![1, 0, 0] (1/10)).dk = 1/10 ∧
      (k_path_segment ![0, 0, 0] ![1, 0, 0] (1/10)).kappa =
        (List.range 10).map fun i : ℕ => (i : ℝ) / 10) ∧
    (∀ (k1 k2 : Fin 3 → ℝ) (dk_set : ℝ),
      (k_path_segment k1 k2 dk_set).kappa_12.1 <
          (k_path_segment k1 k2 dk_set).kappa_12.2 →
      0 < (k_path_segment k1 k2 dk_set).N_k →
      (k_path_segment k1 k2 dk_set).dk =
          ((k_path_segment k1 k2 dk_set).kappa_12.2 -
              (k_path_segment k1 k2 dk_set).kappa_12.1) /
            ((k_path_segment k1 k2 dk_set).N_k : ℝ) ∧
        (k_path_segment k1 k2 dk_set).kappa.length =
          (k_path_segment k1 k2 dk_set).N_k.toNat ∧
        (∀ i : ℕ, i < (k_path_segment k1 k2 dk_set).N_k.toNat →
          (k_path_segment k1 k2 dk_set).kappa.getD i 0 =
            (k_path_segment k1 k2 dk_set).kappa_12.1 +
              i * (k_path_segment k1 k2 dk_set).dk) ∧
        (k_path_segment k1 k2 dk_set).kappa.getD
            ((k_path_segment k1 k2 dk_set).N_k.toNat - 1) 0 +
            (k_path_segment k1 k2 dk_set).dk =
          (k_path_segment k1 k2 dk_set).kappa_12.2) := by
  constructor
  · refine ⟨seg100_N_k, seg100_dk, ?_⟩
    rw [k_path_segment_kappa_def, seg100_kappa_12, seg100_dk, seg100_N_k]
    rw [linspaceL, show Int.toNat 10 = 10 from rfl]
    apply List.ext_getElem
    · simp
    · intro i h1 h2
      simp only [List.getElem_map, List.getElem_range]
      norm_num
      field_simp
      ring
  · intro k1 k2 dk_set hκ hN
    have hkd := k_path_segment_dk_def k1 k2 dk_set
    have hkk := k_path_segment_kappa_def k1 k2 dk_set
    set seg := k_path_segment k1 k2 dk_set with hseg
    have hlen : (seg.N_k.toNat : ℤ) = seg.N_k := Int.toNat_of_nonneg hN.le
    have hNr : ((seg.N_k.toNat : ℕ) : ℝ) = (seg.N_k : ℝ) := by
      exact_mod_cast congrArg Int.cast hlen
    have hNpos : 0 < seg.N_k.toNat := by omega
    have hNne : ((seg.N_k : ℝ)) ≠ 0 := by
      have : (0 : ℤ) < seg.N_k := hN
      positivity
    have hdkN : seg.kappa_12.2 - seg.kappa_12.1 = seg.dk * (seg.N_k : ℝ) := by
      rw [hkd]; field_simp
    have key : ∀ i : ℕ, i < seg.N_k.toNat →
        seg.kappa.getD i 0 = seg.kappa_12.1 + i * seg.dk := by
      intro i hi
      rw [hkk, linspaceL_getD _ _ _ _ hi]
      by_cases h1 : seg.N_k.toNat = 1
      · rw [if_pos h1]
        have hi0 : i = 0 := by omega
        subst hi0
        simp
      · rw [if_neg h1]
        have h2 : 2 ≤ seg.N_k.toNat := by omega
        have hne1 : ((seg.N_k.toNat : ℕ) : ℝ) - 1 ≠ 0 := by
          have : (2 : ℝ) ≤ ((seg.N_k.toNat : ℕ) : ℝ) := by exact_mod_cast h2
          nlinarith
        have hstep : seg.kappa_12.2 - seg.dk - seg.kappa_12.1 =
            seg.dk * (((seg.N_k.toNat : ℕ) : ℝ) - 1) := by
          rw [hNr]
          nlinarith [hdkN]
        rw [hstep]
        field_simp
        ring
    refine ⟨hkd, by rw [hkk, linspaceL_length], key, ?_⟩
    rw [key _ (by omega)]
    have hcast : ((seg.N_k.toNat - 1 : ℕ) : ℝ) = (seg.N_k : ℝ) - 1 := by
      push_cast [Nat.cast_sub hNpos]
      rw [hNr]
    rw [hcast]
    nlinarith [hdkN]

/-- Witness for C4: both hypotheses of the general statement hold at the
concrete segment, and the theorem yields its conclusion there. -/
theorem sampling_grid_spec_witness :
    (k_path_segment ![0, 0, 0] ![1, 0, 0] (1/10)).kappa_12.1 <
        (k_path_segment ![0, 0, 0] ![1, 0, 0] (1/10)).kappa_12.2 ∧
    0 < (k_path_segment ![0, 0, 0] ![1, 0, 0] (1/10)).N_k ∧
    (k_path_segment ![0, 0, 0] ![1, 0, 0] (1/10)).kappa.length =
      (k_path_segment ![0, 0, 0] ![1, 0, 0] (1/10)).N_k.toNat :=
  have h1 : (k_path_segment ![0, 0, 0] ![1, 0, 0] (1/10)).kappa_12.1 <
      (k_path_segment ![0, 0, 0] ![1, 0, 0] (1/10)).kappa_12.2 := by
    rw [seg100_kappa_12]; norm_num
  have h2 : 0 < (k_path_segment ![0, 0, 0] ![1, 0, 0] (1/10)).N_k := by
    rw [seg100_N_k]; norm_num
  ⟨h1, h2, (sampling_grid_spec.2 ![0, 0, 0] ![1, 0, 0] (1/10) h1 h2).2.1⟩

/-! ### C9 -/

theorem buildKappa_chain (segs : List KSegment) :
    ∀ kend : ℝ,
      (∀ seg ∈ segs, seg.kappa ≠ [] ∧ seg.kappa.Chain' (· < ·) ∧ 0 < seg.dk) →
      (buildKappa segs kend).Chain' (· < ·) ∧ (buildKappa segs kend).head? = some kend := by
  induction segs with
  | nil => exact fun kend _ => ⟨List.chain'_singleton _, rfl⟩
  | cons seg rest ih =>
    intro kend h
    obtain ⟨hne, hchain, hdk⟩ := h seg (List.mem_cons_self _ _)
    have hrest := fun s hs => h s (List.mem_cons_of_mem _ hs)
    rw [buildKappa]
    set c := seg.kappa.headD 0 - kend with hc
    set shifted := seg.kappa.map fun x => x - c with hsh
    have hshne : shifted ≠ [] := by
      simpa [hsh] using hne
    have hshchain : shifted.Chain' (· < ·) := by
      rw [hsh, List.chain'_map]
      exact hchain.imp fun a b hab => by simpa using hab
    have hshhead : shifted.head? = some kend := by
      cases hk : seg.kappa with
      | nil => exact absurd hk hne
      | cons x xs =>
        rw [hsh, hk]
        simp [hc, hk]
    have hlast : shifted.getLast? = some (shifted.getLastD 0) := by
      cases hsc : shifted with
      | nil => exact absurd hsc hshne
      | cons y ys =>
        rw [List.getLastD_eq_getLast?]
        cases h2 : (y :: ys).getLast? with
        | none => exact absurd (List.getLast?_eq_none_iff.mp h2) (by simp)
        | some v => rfl
    obtain ⟨ihchain, ihhead⟩ := ih (shifted.getLastD 0 + seg.dk) hrest
    constructor
    · refine List.Chain'.append hshchain ihchain ?_
      intro a ha b hb
      rw [hlast, Option.mem_def, Option.some.injEq] at ha
      rw [ihhead, Option.mem_def, Option.some.injEq] at hb
      subst ha
      subst hb
      linarith
    · rw [List.head?_append_of_ne_nil _ hshne]
      exact hshhead

/-- C9: if every segment has a non-empty strictly increasing kappa sample list
and positive spacing `dk`, the concatenated kappa array returned by
`organize_output_path` (segment boundaries and the appended closing point
included) is strictly monotonically increasing. -/
theorem path_assembly_monotonic (k_path : List KSegment)
    (h : ∀ seg ∈ k_path, seg.kappa ≠ [] ∧ seg.kappa.Chain' (· < ·) ∧ 0 < seg.dk) :
    (organize_output_path k_path).Chain' (· < ·) ∧
      (organize_output_path k_path).Pairwise (· < ·) := by
  have hc : (organize_output_path k_path).Chain' (· < ·) := by
    rw [organize_output_path]
    exact (buildKappa_chain k_path 0 h).1
  exact ⟨hc, List.chain'_iff_pairwise.mp hc⟩

/-- Witness for C9: a concrete two-segment path with strictly increasing
samples and positive spacings. -/
theorem path_assembly_monotonic_witness :
    ([(0 : ℝ), 1/2] ≠ ([] : List ℝ)) ∧ List.Chain' (· < ·) [(0 : ℝ), 1/2] ∧
    ((0 : ℝ) < 1/2) ∧
    ([(5 : ℝ), 11/2] ≠ ([] : List ℝ)) ∧ List.Chain' (· < ·) [(5 : ℝ), 11/2] ∧
    (organize_output_path
        [{ (default : KSegment) with kappa := [(0 : ℝ), 1/2], dk := 1/2 },
         { (default : KSegment) with kappa := [(5 : ℝ), 11/2], dk := 1/2 }]).Chain'
      (· < ·) :=
  have hhyp : ∀ seg ∈ [{ (default : KSegment) with kappa := [(0 : ℝ), 1/2], dk := 1/2 },
      { (default : KSegment) with kappa := [(5 : ℝ), 11/2], dk := 1/2 }],
      seg.kappa ≠ [] ∧ seg.kappa.Chain' (· < ·) ∧ 0 < seg.dk := by
    intro s hs
    rw [List.mem_cons, List.mem_cons] at hs
    rcases hs with rfl | rfl | hs
    · exact ⟨by simp, by norm_num [List.chain'_cons, List.chain'_singleton], by norm_num⟩
    · exact ⟨by simp, by norm_num [List.chain'_cons, List.chain'_singleton], by norm_num⟩
    · exact absurd hs (List.not_mem_nil _)
  ⟨by simp, by norm_num [List.chain'_cons, List.chain'_singleton], by norm_num,
    by simp, by norm_num [List.chain'_cons, List.chain'_singleton],
    (path_assembly_monotonic _ hhyp).1⟩

/-! ### C8 -/

/-- C8: the segment builder has no minimum-1 guard on the sample count.  For
the failing input `k1 = (0,0,0)`, `k2 = (1,0,0)`, `dk_set = 3` (distinct
endpoints, `dk_set > 0`) it returns `N_k = round(1/3) = 0` and an empty sample
grid, instead of rejecting zero sample counts at build time as the claim
states. -/
theorem sample_count_zero_failing_input :
    (k_path_segment ![0, 0, 0] ![1, 0, 0] 3).N_k = 0 ∧
    (k_path_segment ![0, 0, 0] ![1, 0, 0] 3).kappa = [] := by
  have hN : (k_path_segment ![0, 0, 0] ![1, 0, 0] 3).N_k = 0 := by
    show closest _ = 0
    norm_num [dot3, norm3, Fin.sum_univ_three]
    norm_num [closest, pyRound, Int.fract]
  refine ⟨hN, ?_⟩
  rw [k_path_segment_kappa_def, hN]
  rfl

/-! ### C5 -/

theorem min_non_zero_eq (e : Fin 3 → ℝ) (m : ℝ) (hmem : ∃ i, e i ≠ 0 ∧ |e i| = m)
    (hle : ∀ i, e i ≠ 0 → m ≤ |e i|) : min_non_zero e = m := by
  obtain ⟨j, hj, hjm⟩ := hmem
  have hne : (nonzeroAbs e).Nonempty :=
    ⟨|e j|, Finset.mem_image.mpr ⟨j, Finset.mem_filter.mpr ⟨Finset.mem_univ _, hj⟩, rfl⟩⟩
  rw [min_non_zero, dif_pos hne]
  apply le_antisymm
  · exact Finset.min'_le _ _
      (Finset.mem_image.mpr ⟨j, Finset.mem_filter.mpr ⟨Finset.mem_univ _, hj⟩, hjm⟩)
  · apply Finset.le_min'
    intro y hy
    obtain ⟨i, hi, rfl⟩ := Finset.mem_image.mp hy
    exact hle i (Finset.mem_filter.mp hi).2

/-- Counterexample to C5: for the non-zero direction `e = (1, 1.7, 0)` the
classifier computes `int(sum - 1) = floor(1.7) = 1`, whereas the claimed
formula `round(sum(|index|)) - 1 = round(2.7) - 1 = 2`. -/
theorem set_index_round_counterexample :
    (set_index ![1, 17/10, 0]).2 ≠
      round (∑ i : Fin 3, |(set_index ![1, 17/10, 0]).1 i|) - 1 := by
  have habs : |((17 : ℝ)/10)| = 17/10 := abs_of_pos (by norm_num)
  have hmin : min_non_zero ![1, 17/10, 0] = 1 := by
    apply min_non_zero_eq
    · exact ⟨0, by norm_num, by norm_num⟩
    · intro i hi
      fin_cases i
      · norm_num
      · norm_num [habs]
      · simp at hi
  have hlab : (set_index ![1, 17/10, 0]).2 = 1 := by
    simp only [set_index, hmin, Fin.sum_univ_three]
    norm_num [pyInt, Int.floor_eq_iff, habs]
  have hsum : (∑ i : Fin 3, |(set_index ![1, 17/10, 0]).1 i|) = 27/10 := by
    simp only [set_index, hmin, Fin.sum_univ_three]
    norm_num [habs]
  rw [hlab, hsum]
  norm_num [round_eq, Int.floor_eq_iff]

/-- C5 (amended): for every non-zero direction `e` the classifier label is
`floor(sum(|index|)) - 1` (Python `int()` truncation, not rounding); on exact
(100)-, (110)- and (111)-type unit directions it yields 0, 1 and 2. -/
theorem set_index_label_floor :
    (∀ e : Fin 3 → ℝ, (∃ i, e i ≠ 0) →
      (set_index e).2 = ⌊∑ i : Fin 3, |(set_index e).1 i|⌋ - 1) ∧
    (set_index ![1, 0, 0]).2 = 0 ∧
    (set_index ![(Real.sqrt 2)⁻¹, (Real.sqrt 2)⁻¹, 0]).2 = 1 ∧
    (set_index ![(Real.sqrt 3)⁻¹, (Real.sqrt 3)⁻¹, (Real.sqrt 3)⁻¹]).2 = 2 := by
  refine ⟨?_, ?_, ?_, ?_⟩
  · intro e he
    obtain ⟨j, hj⟩ := he
    have hne : (nonzeroAbs e).Nonempty :=
      ⟨|e j|, Finset.mem_image.mpr ⟨j, Finset.mem_filter.mpr ⟨Finset.mem_univ _, hj⟩, rfl⟩⟩
    have hmindef : min_non_zero e = (nonzeroAbs e).min' hne := by
      rw [min_non_zero, dif_pos hne]
    obtain ⟨j0, hj0f, hj0⟩ := Finset.mem_image.mp (Finset.min'_mem _ hne)
    have hj0ne : e j0 ≠ 0 := (Finset.mem_filter.mp hj0f).2
    have habs : |e j0| = min_non_zero e := by rw [hmindef, hj0]
    have hmpos : 0 < min_non_zero e := habs ▸ abs_pos.mpr hj0ne
    have hone : |e j0 / min_non_zero e| = 1 := by
      rw [abs_div, abs_of_pos hmpos, habs]
      exact div_self hmpos.ne'
    have hterm : ∀ i ∈ (Finset.univ : Finset (Fin 3)), 0 ≤ |e i / min_non_zero e| :=
      fun i _ => abs_nonneg _
    have hss : |e j0 / min_non_zero e| ≤ ∑ i : Fin 3, |e i / min_non_zero e| :=
      Finset.single_le_sum hterm (Finset.mem_univ j0)
    have hsum : 1 ≤ ∑ i : Fin 3, |e i / min_non_zero e| := by
      rw [← hone]
      exact hss
    show pyInt ((∑ i : Fin 3, |e i / min_non_zero e|) - 1) =
      ⌊∑ i : Fin 3, |e i / min_non_zero e|⌋ - 1
    rw [pyInt, if_pos (by linarith)]
    rw [show (1 : ℝ) = ((1 : ℤ) : ℝ) from by norm_num, Int.floor_sub_int]
  · have hmin : min_non_zero ![1, 0, 0] = 1 := by
      apply min_non_zero_eq
      · exact ⟨0, by norm_num, by norm_num⟩
      · intro i hi
        fin_cases i
        · norm_num
        · simp at hi
        · simp at hi
    simp only [set_index, hmin, Fin.sum_univ_three]
    norm_num [pyInt]
  · have hs2 : (0 : ℝ) < Real.sqrt 2 := Real.sqrt_pos.mpr (by norm_num)
    have hm : (0 : ℝ) < (Real.sqrt 2)⁻¹ := inv_pos.mpr hs2
    have habs : |(Real.sqrt 2)⁻¹| = (Real.sqrt 2)⁻¹ := abs_of_pos hm
    have hmin : min_non_zero ![(Real.sqrt 2)⁻¹, (Real.sqrt 2)⁻¹, 0] = (Real.sqrt 2)⁻¹ := by
      apply min_non_zero_eq
      · exact ⟨0, by simp [hm.ne'], by simp [habs]⟩
      · intro i hi
        fin_cases i
        · simp [habs]
        · simp [habs]
        · simp at hi
    simp only [set_index, hmin, Fin.sum_univ_three]
    rw [Matrix.cons_val_zero, Matrix.cons_val_one]
    norm_num [div_self hm.ne', pyInt]
  · have hs3 : (0 : ℝ) < Real.sqrt 3 := Real.sqrt_pos.mpr (by norm_num)
    have hm : (0 : ℝ) < (Real.sqrt 3)⁻¹ := inv_pos.mpr hs3
    have habs : |(Real.sqrt 3)⁻¹| = (Real.sqrt 3)⁻¹ := abs_of_pos hm
    have hmin : min_non_zero ![(Real.sqrt 3)⁻¹, (Real.sqrt 3)⁻¹, (Real.sqrt 3)⁻¹] =
        (Real.sqrt 3)⁻¹ := by
      apply min_non_zero_eq
      · exact ⟨0, by simp [hm.ne'], by simp [habs]⟩
      · intro i hi
        fin_cases i
        · simp [habs]
        · simp [habs]
        · simp [habs]
    simp only [set_index, hmin, Fin.sum_univ_three]
    rw [Matrix.cons_val_zero, Matrix.cons_val_one]
    norm_num [div_self hm.ne', pyInt]

/-- Witness for C5 (amended): the general truncation formula applied at the
non-zero vector `(1, 1.7, 0)`. -/
theorem set_index_label_floor_witness :
    ((![1, 17/10, 0] : Fin 3 → ℝ) 0 ≠ 0) ∧
    (set_index ![1, 17/10, 0]).2 =
      ⌊∑ i : Fin 3, |(set_index ![1, 17/10, 0]).1 i|⌋ - 1 :=
  ⟨by norm_num, set_index_label_floor.1 ![1, 17/10, 0] ⟨0, by norm_num⟩⟩

/-! ### C2 -/

theorem k_path_segment_N_bun_def (k1 k2 : Fin 3 → ℝ) (dk_set : ℝ) :
    (k_path_segment k1 k2 dk_set).N_bun =
      (e_k_dict.getD
        (set_index fun i => (k2 i - k1 i) / norm3 fun j => k2 j - k1 j).2.toNat
        default).N_bun := rfl

theorem seg100_label :
    (set_index fun i =>
        ((![1, 0, 0] : Fin 3 → ℝ) i - (![0, 0, 0] : Fin 3 → ℝ) i) /
          norm3 fun j => (![1, 0, 0] : Fin 3 → ℝ) j - (![0, 0, 0] : Fin 3 → ℝ) j).2 = 0 := by
  have hek : (fun i =>
      ((![1, 0, 0] : Fin 3 → ℝ) i - (![0, 0, 0] : Fin 3 → ℝ) i) /
        norm3 fun j => (![1, 0, 0] : Fin 3 → ℝ) j - (![0, 0, 0] : Fin 3 → ℝ) j) =
      ![1, 0, 0] := by
    have hn : norm3 (fun j => (![1, 0, 0] : Fin 3 → ℝ) j - (![0, 0, 0] : Fin 3 → ℝ) j) = 1 := by
      norm_num [norm3, dot3, Fin.sum_univ_three]
    funext i
    rw [hn]
    fin_cases i <;> norm_num
  rw [hek]
  have hmin : min_non_zero ![1, 0, 0] = 1 := by
    apply min_non_zero_eq
    · exact ⟨0, by norm_num, by norm_num⟩
    · intro i hi
      fin_cases i
      · norm_num
      · simp at hi
      · simp at hi
  simp only [set_index, hmin, Fin.sum_univ_three]
  norm_num [pyInt]

theorem seg100_N_bun : (k_path_segment ![0, 0, 0] ![1, 0, 0] (1/10)).N_bun = 1 := by
  rw [k_path_segment_N_bun_def, seg100_label]
  rfl

theorem k_path_segment_dir_def (k1 k2 : Fin 3 → ℝ) (dk_set : ℝ) :
    (k_path_segment k1 k2 dk_set).dir =
      (set_index fun i => (k2 i - k1 i) / norm3 fun j => k2 j - k1 j).2 := rfl

theorem seg100_dir : (k_path_segment ![0, 0, 0] ![1, 0, 0] (1/10)).dir = 0 := by
  rw [k_path_segment_dir_def]
  exact seg100_label

/-- Counterexample to C2: for the concrete family-0 segment from `(0,0,0)` to
`(1,0,0)` the projection driver enumerates `range(N_bun)` with `N_bun = 1`, so
bundle index `b = 1` (the body-centered offset) is never enumerated, contrary
to the claim that both `b = 0` and `b = 1` are. -/
theorem bundle_enumeration_counterexample :
    (1 : ℕ) ∉ bseWorkItems100 (k_path_segment ![0, 0, 0] ![1, 0, 0] (1/10)) := by
  rw [bseWorkItems100, seg100_N_bun]
  decide

/-- C2 (amended): every family-0 segment built by `k_path_segment` (labelled
`dir = 0`) draws its bundle count from the (100) direction-table entry, which
carries `N_bun = 1`, so the projection driver enumerates only bundle index
`b = 0` for it; `set_bundle_100` itself builds in-plane coordinate arrays of
length `2N+1` for `b = 0` and of length `2N` for `b = 1` (the latter branch is
unreachable from the driver with the shipped table). -/
theorem bundle_100_enumeration_and_sizes :
    (∀ (k1 k2 : Fin 3 → ℝ) (dk_set : ℝ),
      (k_path_segment k1 k2 dk_set).dir = 0 →
      bseWorkItems100 (k_path_segment k1 k2 dk_set) = [0]) ∧
    (e_k_dict.getD 0 default).N_bun = 1 ∧
    (∀ (seg : KSegment) (st : KStructure) (n : ℕ), st.Nyquist = (n : ℤ) →
      (set_bundle_100 0 seg st).k_0_0.length = 2 * n + 1 ∧
      (set_bundle_100 0 seg st).k_0_1.length = 2 * n + 1 ∧
      (set_bundle_100 1 seg st).k_0_0.length = 2 * n ∧
      (set_bundle_100 1 seg st).k_0_1.length = 2 * n) := by
  refine ⟨?_, rfl, ?_⟩
  · intro k1 k2 dk_set hd
    rw [k_path_segment_dir_def] at hd
    rw [bseWorkItems100, k_path_segment_N_bun_def, hd]
    rfl
  · intro seg st n h
    refine ⟨?_, ?_, ?_, ?_⟩ <;> simp [set_bundle_100, linspaceL_length, h] <;> omega

/-- Witness for C2 (amended): the only-`b = 0` enumeration applied at the
concrete family-0 segment from `(0,0,0)` to `(1,0,0)`, and the in-plane sizes
at a concrete summary record with Nyquist limit 2. -/
theorem bundle_100_enumeration_and_sizes_witness :
    (k_path_segment ![0, 0, 0] ![1, 0, 0] (1/10)).dir = 0 ∧
    bseWorkItems100 (k_path_segment ![0, 0, 0] ![1, 0, 0] (1/10)) = [0] ∧
    (⟨fun _ => 0, fun _ => [], 2⟩ : KStructure).Nyquist = ((2 : ℕ) : ℤ) ∧
    (set_bundle_100 0 default ⟨fun _ => 0, fun _ => [], 2⟩).k_0_0.length = 2 * 2 + 1 ∧
    (set_bundle_100 1 default ⟨fun _ => 0, fun _ => [], 2⟩).k_0_0.length = 2 * 2 :=
  ⟨seg100_dir,
    bundle_100_enumeration_and_sizes.1 ![0, 0, 0] ![1, 0, 0] (1/10) seg100_dir,
    rfl,
    (bundle_100_enumeration_and_sizes.2.2 default ⟨fun _ => 0, fun _ => [], 2⟩ 2 rfl).1,
    (bundle_100_enumeration_and_sizes.2.2 default ⟨fun _ => 0, fun _ => [], 2⟩ 2 rfl).2.2.1⟩

/-! ### C6 -/

/-- C6: for a (110) segment whose direction vector has all three components of
absolute value at least `1e-6`, `rotate_psi` falls through all three rotation
branches and returns the field unrotated (the value copied from the input),
with no error raised (the model, like the source, has no failure path here). -/
theorem rotate_psi_110_fallthrough (rot : Arr3 → ℝ → ℕ × ℕ → Arr3) (s0 : HState)
    (psiRef : ℕ) (seg : KSegment) (hdir : seg.dir = 1)
    (h2 : ¬ |seg.dir_k 2| < 1e-6) (h1 : ¬ |seg.dir_k 1| < 1e-6)
    (h0 : ¬ |seg.dir_k 0| < 1e-6) :
    rotate_psiRotVal rot s0 psiRef seg = getA3 (s0.heap psiRef) := by
  rw [rotate_psiRotVal, rotate_psi]
  simp only [hdir, halloc, hstore, if_neg h2, if_neg h1, if_neg h0]
  norm_num
  simp [Function.update_apply]
  rw [if_neg (show ¬(s0.next = s0.next + 1 + 1) from by omega),
    if_neg (show ¬(s0.next = s0.next + 1 + 1 + 1 + 1) from by omega),
    if_neg (show ¬(s0.next = s0.next + 1 + 1 + 1) from by omega),
    if_neg (show ¬(s0.next = s0.next + 1 + 1) from by omega)]
  rfl

/-- Witness for C6: a concrete (110)-labelled segment whose direction vector
`(1,1,1)` matches none of the axis-zero conditions. -/
theorem rotate_psi_110_fallthrough_witness :
    ({ (default : KSegment) with dir := 1, dir_k := ![1, 1, 1] } : KSegment).dir = 1 ∧
    ¬ |({ (default : KSegment) with dir := 1, dir_k := ![1, 1, 1] } : KSegment).dir_k 2| <
        1e-6 ∧
    ¬ |({ (default : KSegment) with dir := 1, dir_k := ![1, 1, 1] } : KSegment).dir_k 1| <
        1e-6 ∧
    ¬ |({ (default : KSegment) with dir := 1, dir_k := ![1, 1, 1] } : KSegment).dir_k 0| <
        1e-6 ∧
    rotate_psiRotVal (fun a _ _ => a) default 0
        { (default : KSegment) with dir := 1, dir_k := ![1, 1, 1] } =
      getA3 ((default : HState).heap 0) :=
  have h2 : ¬ |({ (default : KSegment) with dir := 1, dir_k := ![1, 1, 1] } :
      KSegment).dir_k 2| < 1e-6 := by norm_num
  have h1 : ¬ |({ (default : KSegment) with dir := 1, dir_k := ![1, 1, 1] } :
      KSegment).dir_k 1| < 1e-6 := by norm_num
  have h0 : ¬ |({ (default : KSegment) with dir := 1, dir_k := ![1, 1, 1] } :
      KSegment).dir_k 0| < 1e-6 := by norm_num
  ⟨rfl, h2, h1, h0,
    rotate_psi_110_fallthrough (fun a _ _ => a) default 0 _ rfl h2 h1 h0⟩

/-! ### C7 -/

/-- Counterexample to C7: a (110) segment whose direction index `(1,1,1)` has
all three components non-zero.  The claim predicts two composed rotations; the
code applies none, returning the input field, which differs from the doubly
rotated field for a rotation collaborator that changes the data. -/
theorem rotation_order_counterexample :
    rotate_psiRotVal (fun _ _ _ => ⟨1, 1, 1, fun _ _ _ => 5⟩)
        ⟨fun _ => Sum.inl ⟨1, 1, 1, fun _ _ _ => 0⟩, 1⟩ 0
        { (default : KSegment) with dir := 1, dir_k := ![1, 1, 1], indices := ![1, 1, 1] } ≠
      (fun _ _ _ => (⟨1, 1, 1, fun _ _ _ => 5⟩ : Arr3))
        ((fun _ _ _ => (⟨1, 1, 1, fun _ _ _ => 5⟩ : Arr3))
          (getA3 ((⟨fun _ => Sum.inl ⟨1, 1, 1, fun _ _ _ => 0⟩, 1⟩ : HState).heap 0))
          (degrees ({ (default : KSegment) with dir := 1, dir_k := ![1, 1, 1], indices := ![1, 1, 1] } : KSegment).rot_angle.1) (0, 1))
        (degrees ({ (default : KSegment) with dir := 1, dir_k := ![1, 1, 1], indices := ![1, 1, 1] } : KSegment).rot_angle.2) (0, 2) := by
  have hval : rotate_psiRotVal (fun _ _ _ => ⟨1, 1, 1, fun _ _ _ => 5⟩)
      ⟨fun _ => Sum.inl ⟨1, 1, 1, fun _ _ _ => 0⟩, 1⟩ 0
      { (default : KSegment) with dir := 1, dir_k := ![1, 1, 1], indices := ![1, 1, 1] } =
      ⟨1, 1, 1, fun _ _ _ => 0⟩ := by
    rw [rotate_psiRotVal, rotate_psi]
    norm_num [halloc, hstore, Function.update_apply]
    rfl
  rw [hval]
  intro h
  have h5 := congrArg (fun a => a.dat 0 0 0) h
  norm_num at h5

/-- C7 (amended): for a (110) segment, `rotate_psi` applies a single rotation
about axes `(0,1)` by `angle0` when `|dir_k 2| < 1e-6`; a single rotation
about axes `(0,2)` by `angle1` when `|dir_k 2| ≥ 1e-6` and `|dir_k 1| < 1e-6`;
and the two composed rotations (first `(0,1)` by `angle0`, then `(0,2)` by
`angle1`) precisely in the remaining case `|dir_k 0| < 1e-6` — not when all
three components are non-zero (then it applies none, see C6). -/
theorem rotation_branches (rot : Arr3 → ℝ → ℕ × ℕ → Arr3) (s0 : HState)
    (psiRef : ℕ) (seg : KSegment) (hdir : seg.dir = 1) :
    (|seg.dir_k 2| < 1e-6 →
      rotate_psiRotVal rot s0 psiRef seg =
        rot (getA3 (s0.heap psiRef)) (degrees seg.rot_angle.1) (0, 1)) ∧
    (¬ |seg.dir_k 2| < 1e-6 → |seg.dir_k 1| < 1e-6 →
      rotate_psiRotVal rot s0 psiRef seg =
        rot (getA3 (s0.heap psiRef)) (degrees seg.rot_angle.2) (0, 2)) ∧
    (¬ |seg.dir_k 2| < 1e-6 → ¬ |seg.dir_k 1| < 1e-6 → |seg.dir_k 0| < 1e-6 →
      rotate_psiRotVal rot s0 psiRef seg =
        rot (rot (getA3 (s0.heap psiRef)) (degrees seg.rot_angle.1) (0, 1))
          (degrees seg.rot_angle.2) (0, 2)) := by
  refine ⟨?_, ?_, ?_⟩
  · intro hA
    rw [rotate_psiRotVal, rotate_psi]
    simp only [hdir, halloc, hstore, if_pos hA]
    norm_num
    simp [Function.update_apply]
    repeat rw [if_neg (by omega)]
    rfl
  · intro hA hB
    rw [rotate_psiRotVal, rotate_psi]
    simp only [hdir, halloc, hstore, if_neg hA, if_pos hB]
    norm_num
    simp [Function.update_apply]
    repeat rw [if_neg (by omega)]
    rfl
  · intro hA hB hC
    rw [rotate_psiRotVal, rotate_psi]
    simp only [hdir, halloc, hstore, if_neg hA, if_neg hB, if_pos hC]
    norm_num
    simp [Function.update_apply]
    repeat rw [if_neg (by omega)]
    rfl

/-- Witness for C7 (amended): the two-rotation branch at a concrete segment
with direction vector `(0,1,1)`. -/
theorem rotation_branches_witness :
    ({ (default : KSegment) with dir := 1, dir_k := ![0, 1, 1] } : KSegment).dir = 1 ∧
    ¬ |({ (default : KSegment) with dir := 1, dir_k := ![0, 1, 1] } : KSegment).dir_k 2| <
        1e-6 ∧
    ¬ |({ (default : KSegment) with dir := 1, dir_k := ![0, 1, 1] } : KSegment).dir_k 1| <
        1e-6 ∧
    |({ (default : KSegment) with dir := 1, dir_k := ![0, 1, 1] } : KSegment).dir_k 0| <
        1e-6 ∧
    rotate_psiRotVal (fun a _ _ => a) default 0
        { (default : KSegment) with dir := 1, dir_k := ![0, 1, 1] } =
      (fun a _ _ => a)
        ((fun a _ _ => a) (getA3 ((default : HState).heap 0))
          (degrees ({ (default : KSegment) with dir := 1, dir_k := ![0, 1, 1] } :
            KSegment).rot_angle.1) (0, 1))
        (degrees ({ (default : KSegment) with dir := 1, dir_k := ![0, 1, 1] } :
          KSegment).rot_angle.2) (0, 2) :=
  have hA : ¬ |({ (default : KSegment) with dir := 1, dir_k := ![0, 1, 1] } :
      KSegment).dir_k 2| < 1e-6 := by norm_num
  have hB : ¬ |({ (default : KSegment) with dir := 1, dir_k := ![0, 1, 1] } :
      KSegment).dir_k 1| < 1e-6 := by norm_num
  have hC : |({ (default : KSegment) with dir := 1, dir_k := ![0, 1, 1] } :
      KSegment).dir_k 0| < 1e-6 := by norm_num
  ⟨rfl, hA, hB, hC,
    (rotation_branches (fun a _ _ => a) default 0 _ rfl).2.2 hA hB hC⟩

/-! ### C10 -/

/-- C10: neither reorienter mutates the caller's field: for every store whose
input-field address is a valid (already allocated, below the free pointer)
reference, the value at that address after `rotate_psi` or `rotate_psi_111` is
the value before — every write goes to a freshly allocated array. -/
theorem reorientation_no_mutation (rot : Arr3 → ℝ → ℕ × ℕ → Arr3) (s0 : HState)
    (psiRef : ℕ) (seg : KSegment) (h : psiRef < s0.next) :
    (rotate_psi rot s0 psiRef seg).st.heap psiRef = s0.heap psiRef ∧
    (rotate_psi_111 rot s0 psiRef seg).st.heap psiRef = s0.heap psiRef := by
  constructor
  · by_cases hd1 : seg.dir = 1
    · by_cases hc2 : |seg.dir_k 2| < 1e-6
      · rw [rotate_psi]
        simp only [halloc, hstore, if_pos hd1, if_pos hc2]
        simp_arith [Function.update_apply]
        repeat rw [if_neg (by omega)]
      · by_cases hc1 : |seg.dir_k 1| < 1e-6
        · rw [rotate_psi]
          simp only [halloc, hstore, if_pos hd1, if_neg hc2, if_pos hc1]
          simp_arith [Function.update_apply]
          repeat rw [if_neg (by omega)]
        · by_cases hc0 : |seg.dir_k 0| < 1e-6
          · rw [rotate_psi]
            simp only [halloc, hstore, if_pos hd1, if_neg hc2, if_neg hc1, if_pos hc0]
            simp_arith [Function.update_apply]
            repeat rw [if_neg (by omega)]
          · rw [rotate_psi]
            simp only [halloc, hstore, if_pos hd1, if_neg hc2, if_neg hc1, if_neg hc0]
            simp_arith [Function.update_apply]
            repeat rw [if_neg (by omega)]
    · rw [rotate_psi]
      simp only [halloc, hstore, if_neg hd1]
      simp_arith [Function.update_apply]
      repeat rw [if_neg (by omega)]
  · rw [rotate_psi_111]
    simp only [halloc, hstore]
    simp only [Function.update_apply]
    repeat rw [if_neg (by omega)]

/-- Witness for C10: a concrete store with one allocated cell. -/
theorem reorientation_no_mutation_witness :
    (0 : ℕ) < (⟨fun _ => Sum.inr [], 1⟩ : HState).next ∧
    (rotate_psi (fun a _ _ => a) ⟨fun _ => Sum.inr [], 1⟩ 0 default).st.heap 0 =
      (⟨fun _ => Sum.inr [], 1⟩ : HState).heap 0 ∧
    (rotate_psi_111 (fun a _ _ => a) ⟨fun _ => Sum.inr [], 1⟩ 0 default).st.heap 0 =
      (⟨fun _ => Sum.inr [], 1⟩ : HState).heap 0 :=
  have h : (0 : ℕ) < (⟨fun _ => Sum.inr [], 1⟩ : HState).next := by norm_num
  ⟨h, (reorientation_no_mutation (fun a _ _ => a) ⟨fun _ => Sum.inr [], 1⟩ 0 default h).1,
    (reorientation_no_mutation (fun a _ _ => a) ⟨fun _ => Sum.inr [], 1⟩ 0 default h).2⟩
